import Mathlib

/-!
# Verification of the learning-record parser and weekly aggregator

Shallow embedding of the repository's Rust sources:
* `src/parser.rs`   — recursive-descent parser over a character cursor
* `src/processing.rs` — weekly aggregation (`calc_weekly_records`)
* `src/ast.rs`, `src/settings.rs` — document model

Modelling conventions:
* `chrono::NaiveDate` is modelled as an `Int` day number (days since
  1970-01-01, proleptic Gregorian); `chrono::NaiveTime` as a `Nat` number of
  seconds since midnight; `chrono::NaiveDateTime` as a pair of both;
  `chrono::TimeDelta` as an `Int` number of seconds, its constructors and
  addition modelled with chrono's range checks (`±i64::MAX` milliseconds),
  panicking out of bounds exactly as the library does.
* The Rust cursor keeps `source : Vec<char>` with `start`/`current` indices.
  We keep the equivalent data: `remaining` (the characters from `current`
  on), `lexeme` (the characters in `start..current`, i.e. advanced since the
  last `clear`), and `pastEof` (whether `current` has been pushed beyond the
  end of the source, in which case `collect` returns `None` forever, exactly
  as `source.get(start..current)` does in Rust once `current > len`).
* Rust's `.expect(...)` panics are modelled by an explicit `panicked`
  outcome; loops whose progress is data-dependent (and which genuinely may
  diverge) take a fuel parameter, exhaustion being the `noFuel` outcome.
* `toml::from_str` is an external collaborator; the parser is parameterised
  by a function `tomlDe : String → Option Settings` standing for it.
-/

namespace LRec

/-- `chrono::Weekday` (Mon = 0 … Sun = 6, as `num_days_from_monday`). -/
inductive Weekday where
  | mon | tue | wed | thu | fri | sat | sun
  deriving DecidableEq, Repr

/-- Index of a weekday, matching `chrono::Weekday::num_days_from_monday`. -/
def Weekday.toIdx : Weekday → Nat
  | .mon => 0
  | .tue => 1
  | .wed => 2
  | .thu => 3
  | .fri => 4
  | .sat => 5
  | .sun => 6

/-- Inverse of `Weekday.toIdx` (total, argument taken mod 7 by the caller). -/
def weekdayOfIdx : Nat → Weekday
  | 0 => .mon
  | 1 => .tue
  | 2 => .wed
  | 3 => .thu
  | 4 => .fri
  | 5 => .sat
  | _ => .sun

/-- Weekday of a day number. Day 0 = 1970-01-01 was a Thursday, so with
Mon = 0 the index of day `d` is `(d + 3) mod 7`. -/
def weekdayOfDay (d : Int) : Weekday :=
  weekdayOfIdx ((d + 3) % 7).toNat

/-- `NaiveTime`: seconds since midnight. -/
abbrev NaiveTimeM := Nat

/-- `NaiveDateTime`: day number plus seconds since midnight. -/
structure DT where
  date : Int
  time : NaiveTimeM
  deriving DecidableEq, Repr

/-- Strict `NaiveDateTime` order (lexicographic), as a decidable Bool. -/
def dtLt (a b : DT) : Bool :=
  a.date < b.date || (a.date == b.date && a.time < b.time)

/-- `chrono::NaiveTime::from_hms_opt`. -/
def fromHmsOpt (h m s : Nat) : Option NaiveTimeM :=
  if h ≤ 23 && m ≤ 59 && s ≤ 59 then some (h * 3600 + m * 60 + s) else none

/-- Is `(y, m, d)` a real proleptic-Gregorian calendar date (the validity
`chrono::NaiveDate::from_ymd_opt` checks), including chrono's representable
year range `-262144 ≤ y ≤ 262143`? -/
def isLeapYear (y : Int) : Bool :=
  (y % 4 == 0 && y % 100 != 0) || y % 400 == 0

def daysInMonth (y : Int) (m : Nat) : Nat :=
  if m == 2 then (if isLeapYear y then 29 else 28)
  else if m == 4 || m == 6 || m == 9 || m == 11 then 30
  else 31

def validYmd (y : Int) (m d : Nat) : Bool :=
  -262144 ≤ y && y ≤ 262143 && 1 ≤ m && m ≤ 12 && 1 ≤ d && d ≤ daysInMonth y m

/-- Day number of a calendar date (days since 1970-01-01), the standard
days-from-civil computation chrono implements internally. -/
def daysFromCivil (y : Int) (m d : Nat) : Int :=
  let y' : Int := if m ≤ 2 then y - 1 else y
  let era : Int := y'.ediv 400
  let yoe : Int := y'.emod 400
  let mp : Nat := if m ≤ 2 then m + 9 else m - 3
  let doy : Int := (153 * (mp : Int) + 2) / 5 + (d : Int) - 1
  let doe : Int := yoe * 365 + yoe / 4 - yoe / 100 + doy
  era * 146097 + doe - 719468

/-- `chrono::NaiveDate::from_ymd_opt`, as a day number. -/
def fromYmdOpt (y : Int) (m d : Nat) : Option Int :=
  if validYmd y m d then some (daysFromCivil y m d) else none

/-! ## Document model (`src/ast.rs`, `src/settings.rs`) -/

structure Start where
  weekday : Weekday
  time : NaiveTimeM
  deriving DecidableEq, Repr

structure Settings where
  start : Start
  deriving DecidableEq, Repr

structure Tag where
  title : String
  detail : Option String
  deriving DecidableEq, Repr

structure Tags where
  tags : List Tag
  deriving DecidableEq, Repr

structure EventInfo where
  time : NaiveTimeM
  /-- `chrono::TimeDelta`, in seconds. -/
  duration : Int
  deriving DecidableEq, Repr

structure Event where
  tags : Option Tags
  info : List EventInfo
  deriving DecidableEq, Repr

structure DayRecord where
  /-- `chrono::NaiveDate`, as a day number. -/
  date : Int
  events : List Event
  deriving DecidableEq, Repr

structure File where
  settings : Option Settings
  records : List DayRecord
  deriving DecidableEq, Repr

/-! ## Parser errors (`src/parser.rs`) -/

inductive ParseErrorKind where
  | expectedChars (expected : List Char) (found : Char)
  | unexpectedEof
  | invalidDate
  | invalidDurationFormat
  /-- `TomlError(toml::de::Error)`; the external payload is not modelled. -/
  | tomlError
  deriving DecidableEq, Repr

structure ParseError where
  kind : ParseErrorKind
  line : Nat
  column : Nat
  deriving DecidableEq, Repr

/-- Outcome of running a parsing function: a value, a returned `ParseError`,
a Rust panic (from `.expect`), or fuel exhaustion of the model. -/
inductive PRes (α : Type) where
  | ok (a : α)
  | err (e : ParseError)
  | panicked (msg : String)
  | noFuel
  deriving DecidableEq, Repr

/-! ## Cursor state -/

/-- The `Parser` struct's cursor state (see the file header for the
correspondence with the Rust `start`/`current` indices). -/
structure PState where
  remaining : List Char
  lexeme : List Char
  pastEof : Bool
  line : Nat
  column : Nat
  deriving DecidableEq, Repr

/-- `Parser::new`: fresh state over a source. -/
def mkInit (source : List Char) : PState :=
  { remaining := source, lexeme := [], pastEof := false, line := 1, column := 1 }

/-- Line/column bookkeeping of `advance` for one character. -/
def stepPos (lc : Nat × Nat) (c : Char) : Nat × Nat :=
  if c = '\n' then (lc.1 + 1, 1) else (lc.1, lc.2 + 1)

/-- Advance over a run `cs` of characters known to be the prefix of
`st.remaining` (with `rest` the corresponding suffix): the characters are
appended to the pending lexeme and line/column are updated per character. -/
def advMany (st : PState) (cs rest : List Char) : PState :=
  let lc := cs.foldl stepPos (st.line, st.column)
  { st with remaining := rest, lexeme := st.lexeme ++ cs,
            line := lc.1, column := lc.2 }

/-- `Parser::advance`. Returns the consumed character; advancing at EOF
increments `current` past the end (`pastEof`) and changes nothing else. -/
def advance (st : PState) : Option Char × PState :=
  match st.remaining with
  | [] => (none, { st with pastEof := true })
  | c :: rest => (some c, advMany st [c] rest)

/-- `Parser::peek`. -/
def peek (st : PState) : Option Char :=
  st.remaining.head?

/-- `Parser::clear`: `start := current`. -/
def clear (st : PState) : PState :=
  { st with lexeme := [] }

/-- `Parser::collect`: the `start..current` slice as a string, `none` once
`current` has moved past the end of the source; resets the mark (only) on
success, as the Rust `?` short-circuits before the `clear`. -/
def collect (st : PState) : Option String × PState :=
  if st.pastEof then (none, st)
  else (some (String.mk st.lexeme), clear st)

/-- `Parser::make_error`. -/
def mkError (st : PState) (k : ParseErrorKind) : ParseError :=
  ⟨k, st.line, st.column⟩

/-- Rust `char::is_whitespace` (the Unicode `White_Space` set). -/
def rustWhitespace (c : Char) : Bool :=
  [0x9, 0xA, 0xB, 0xC, 0xD, 0x20, 0x85, 0xA0, 0x1680,
   0x2028, 0x2029, 0x202F, 0x205F, 0x3000].contains c.toNat
  || (0x2000 ≤ c.toNat && c.toNat ≤ 0x200A)

/-- Rust `char::is_ascii_digit`. -/
def isAsciiDigit (c : Char) : Bool :=
  48 ≤ c.toNat && c.toNat ≤ 57

/-- Longest prefix of characters satisfying `p`, and the rest.
(The batch form of the Rust peek/advance loops over the cursor.) -/
def spanP (p : Char → Bool) : List Char → List Char × List Char
  | [] => ([], [])
  | c :: rest =>
    if p c then (c :: (spanP p rest).1, (spanP p rest).2)
    else ([], c :: rest)

/-- The character class skipped by `Parser::skip_space`: whitespace other
than newline. -/
def spaceChar (c : Char) : Bool :=
  rustWhitespace c && c != '\n'

/-- `Parser::skip_space`: skip non-newline whitespace, then `clear`. -/
def skipSpace (st : PState) : PState :=
  clear (advMany st (spanP spaceChar st.remaining).1 (spanP spaceChar st.remaining).2)

/-- The character class of the newline-skipping loops in `parse_file`. -/
def nlChar (c : Char) : Bool :=
  c == '\n' || c == '\r'

/-- The newline-skipping loops in `parse_file`
(`while matches!(self.peek(), Some('\n' | '\r')) { self.advance(); }`
followed by `self.clear()`). -/
def skipNewlines (st : PState) : PState :=
  clear (advMany st (spanP nlChar st.remaining).1 (spanP nlChar st.remaining).2)

/-- `Parser::extract_num`: consume a run of ASCII digits, then `collect`. -/
def extractNum (st : PState) : PRes (String × PState) :=
  match collect (advMany st (spanP isAsciiDigit st.remaining).1
                            (spanP isAsciiDigit st.remaining).2) with
  | (some num, st) => .ok (num, st)
  | (none, st) => .err (mkError st .unexpectedEof)

/-- `Parser::extract_until`: advance until `c` (or EOF), keeping the lexeme. -/
def extractUntil (st : PState) (c : Char) : PState :=
  advMany st (spanP (fun x => x != c) st.remaining).1
             (spanP (fun x => x != c) st.remaining).2

/-- `Parser::expect_chars` for a single expected character
(`Parser::expect_char`). -/
def expectChar (st : PState) (c : Char) : PRes PState :=
  match peek st with
  | some found =>
    if found = c then .ok (advance st).2
    else .err (mkError st (.expectedChars [c] found))
  | none => .err (mkError st .unexpectedEof)

/-- `Parser::expect_string`: expect each character in turn, stopping at the
first failure. -/
def expectString (st : PState) : List Char → PRes PState
  | [] => .ok st
  | c :: cs =>
    match expectChar st c with
    | .ok st' => expectString st' cs
    | .err e => .err e
    | .panicked m => .panicked m
    | .noFuel => .noFuel

/-! ## Number parsing (Rust `str::parse` on the collected lexemes) -/

/-- Numeric value of a digit string (the lexemes here are all-digit). -/
def charsToNatVal (cs : List Char) : Nat :=
  cs.foldl (fun a c => 10 * a + (c.toNat - 48)) 0

/-- Rust `str::parse::<T>` for an unsigned decimal string with maximum value
`bound`: fails on the empty string and on overflow. -/
def parseBounded (bound : Nat) (s : String) : Option Nat :=
  if s.data.isEmpty then none
  else
    let n := charsToNatVal s.data
    if n ≤ bound then some n else none

def u32Max : Nat := 4294967295
def i32Max : Nat := 2147483647
def i64Max : Nat := 9223372036854775807

def parseU32 : String → Option Nat := parseBounded u32Max
def parseI32 : String → Option Nat := parseBounded i32Max
def parseI64 : String → Option Nat := parseBounded i64Max

/-- Short-circuit composition, the model of Rust's `?` / early return. -/
def PRes.bind {α β : Type} : PRes α → (α → PRes β) → PRes β
  | .ok a, f => f a
  | .err e, _ => .err e
  | .panicked m, _ => .panicked m
  | .noFuel, _ => .noFuel

/-! ## Grammar parser (`src/parser.rs`) -/

/-- `Parser::parse_date`. The Rust code runs `str::parse` on each collected
component and `.expect`s the result, so an unparsable component (empty, or
out of integer range) is a panic, not a returned error. -/
def parseDate (st : PState) : PRes (Int × PState) :=
  (extractNum st).bind fun (ys, st) =>
  match parseI32 ys with
  | none => .panicked "failed to parse year"
  | some year =>
  (expectChar st '-').bind fun st =>
  let st := clear st
  (extractNum st).bind fun (ms, st) =>
  match parseU32 ms with
  | none => .panicked "failed to parse month"
  | some month =>
  (expectChar st '-').bind fun st =>
  let st := clear st
  (extractNum st).bind fun (ds, st) =>
  match parseU32 ds with
  | none => .panicked "failed to parse day"
  | some day =>
  let st := clear st
  match fromYmdOpt (year : Int) month day with
  | none => .err (mkError st .invalidDate)
  | some date => .ok (date, st)

/-- The `hms: [Option<i64>; 3]` array of `parse_event_info`. -/
structure Hms where
  h : Option Nat
  m : Option Nat
  s : Option Nat
  deriving DecidableEq, Repr

def Hms.set (a : Hms) (idx : Nat) (v : Nat) : Hms :=
  if idx = 0 then { a with h := some v }
  else if idx = 1 then { a with m := some v }
  else { a with s := some v }

def Hms.allNone (a : Hms) : Bool :=
  a.h.isNone && a.m.isNone && a.s.isNone

/-- The duration loop of `Parser::parse_event_info`
(`while i < hms.len() { ... }`). A `break` on a failed `extract_num` or
number parse leaves the cursor exactly where that call left it (the error
path of `extract_num` mutates nothing, as it fires only once the cursor is
already past EOF). -/
def parseDurLoop : Nat → Nat → Hms → PState → PRes (Hms × PState)
  | 0, _, _, _ => .noFuel
  | fuel + 1, i, hms, st =>
    if i < 3 then
      match extractNum st with
      | .err _ => .ok (hms, st)
      | .panicked msg => .panicked msg
      | .noFuel => .noFuel
      | .ok (numStr, st) =>
        match parseI64 numStr with
        | none => .ok (hms, st)
        | some num =>
          match advance st with
          | (none, st) => .err (mkError st .unexpectedEof)
          | (some unit, st) =>
            match (if unit = 'h' then some 0 else if unit = 'm' then some 1
                   else if unit = 's' then some 2 else none : Option Nat) with
            | none => .err (mkError st .invalidDurationFormat)
            | some nUnit =>
              let st := clear st
              if nUnit < i then .err (mkError st .invalidDurationFormat)
              else parseDurLoop fuel (nUnit + 1) (hms.set nUnit num) st
    else .ok (hms, st)

/-- The largest whole-second magnitude a `chrono::TimeDelta` can hold:
`TimeDelta::MAX` is `i64::MAX` milliseconds, so `i64::MAX / 1000` whole
seconds (9223372036854775). -/
def timeDeltaMaxSecs : Nat := 9223372036854775

/-- `chrono::TimeDelta::hours` on the nonnegative magnitudes parsed here:
`try_hours(h).expect(..)` panics when `h * 3600` seconds leaves the
`TimeDelta` range (this also covers the `checked_mul` overflow inside
`try_hours`, whose bound is larger). -/
def timeDeltaHours (h : Nat) : PRes Int :=
  if 3600 * h ≤ timeDeltaMaxSecs then .ok (3600 * (h : Int))
  else .panicked "TimeDelta::hours out of bounds"

/-- `chrono::TimeDelta::minutes`, as `timeDeltaHours`. -/
def timeDeltaMinutes (m : Nat) : PRes Int :=
  if 60 * m ≤ timeDeltaMaxSecs then .ok (60 * (m : Int))
  else .panicked "TimeDelta::minutes out of bounds"

/-- `chrono::TimeDelta::seconds`, as `timeDeltaHours`. -/
def timeDeltaSeconds (s : Nat) : PRes Int :=
  if s ≤ timeDeltaMaxSecs then .ok (s : Int)
  else .panicked "TimeDelta::seconds out of bounds"

/-- `TimeDelta + TimeDelta` (`checked_add(..).expect(..)`): panics when the
sum leaves the `TimeDelta` range. For the zero-nanosecond values built here
the range in whole seconds is `[-timeDeltaMaxSecs, timeDeltaMaxSecs]`
(`TimeDelta::MIN` is `-i64::MAX` milliseconds). -/
def timeDeltaAdd (a b : Int) : PRes Int :=
  if -(timeDeltaMaxSecs : Int) ≤ a + b ∧ a + b ≤ (timeDeltaMaxSecs : Int) then
    .ok (a + b)
  else .panicked "overflow when adding durations"

/-- The second half of `Parser::parse_event_info`, from the duration loop
on: run the loop, reject an all-absent duration, validate the clock time
(sharing the `InvalidDurationFormat` kind), and build the duration as the
source does — `TimeDelta::hours(h) + TimeDelta::minutes(m) +
TimeDelta::seconds(s)` in Rust's evaluation order (hours, minutes, their
sum, seconds, final sum), each step able to panic out of bounds. -/
def parseEventInfoDur (fuel dateHours dateMinutes : Nat) (st : PState) :
    PRes (EventInfo × PState) :=
  (parseDurLoop fuel 0 ⟨none, none, none⟩ st).bind fun (hms, st) =>
  if hms.allNone then .err (mkError st .invalidDurationFormat)
  else
    match fromHmsOpt dateHours dateMinutes 0 with
    | none => .err (mkError st .invalidDurationFormat)
    | some time =>
      (timeDeltaHours (hms.h.getD 0)).bind fun dh =>
      (timeDeltaMinutes (hms.m.getD 0)).bind fun dm =>
      (timeDeltaAdd dh dm).bind fun dhm =>
      (timeDeltaSeconds (hms.s.getD 0)).bind fun ds =>
      (timeDeltaAdd dhm ds).bind fun duration =>
      .ok (⟨time, duration⟩, st)

/-- `Parser::parse_event_info`: the `H:M` start time, the `-` separator,
then the duration part (`parseEventInfoDur`). -/
def parseEventInfo (fuel : Nat) (st : PState) : PRes (EventInfo × PState) :=
  (extractNum st).bind fun (hs, st) =>
  match parseU32 hs with
  | none => .err (mkError st .unexpectedEof)
  | some dateHours =>
  (expectChar st ':').bind fun st =>
  let st := clear st
  (extractNum st).bind fun (ms, st) =>
  match parseU32 ms with
  | none => .err (mkError st .unexpectedEof)
  | some dateMinutes =>
  let st := skipSpace st
  (expectChar st '-').bind fun st =>
  let st := skipSpace st
  parseEventInfoDur fuel dateHours dateMinutes st

/-- The character class of a tag title: the title loop of `parse_tag`
advances while the character is not whitespace, `]` or `(`. -/
def tagTitleChar (c : Char) : Bool :=
  !(rustWhitespace c) && c != ']' && c != '('

/-- `Parser::parse_tag`. -/
def parseTag (st : PState) : PRes (Tag × PState) :=
  let st := skipSpace st
  let ttl := (spanP tagTitleChar st.remaining).1
  let rest := (spanP tagTitleChar st.remaining).2
  let st := advMany st ttl rest
  match collect st with
  | (none, st) => .err (mkError st .unexpectedEof)
  | (some title, st) =>
    if peek st = some '(' then
      let st := clear (advance st).2
      let st := extractUntil st ')'
      let (result, st) := collect st
      let st := clear (advance st).2
      .ok (⟨title, result⟩, st)
    else .ok (⟨title, none⟩, st)

/-- The tag loop of `Parser::parse_tags`
(`while matches!(self.peek(), Some(c) if c != ']')`). -/
def parseTagsLoop : Nat → PState → List Tag → PRes (List Tag × PState)
  | 0, _, _ => .noFuel
  | fuel + 1, st, acc =>
    match peek st with
    | some c =>
      if c ≠ ']' then
        (parseTag st).bind fun (t, st) => parseTagsLoop fuel st (acc ++ [t])
      else .ok (acc, st)
    | none => .ok (acc, st)

/-- `Parser::parse_tags`. -/
def parseTags (fuel : Nat) (st : PState) : PRes (Tags × PState) :=
  (expectChar st '[').bind fun st =>
  let st := clear st
  (parseTagsLoop fuel st []).bind fun (tags, st) =>
  let st := skipSpace st
  (expectChar st ']').bind fun st =>
  .ok (⟨tags⟩, clear st)

/-- The info loop of `Parser::parse_event`. -/
def parseEventLoop : Nat → PState → List EventInfo → PRes (List EventInfo × PState)
  | 0, _, _ => .noFuel
  | fuel + 1, st, acc =>
    match peek st with
    | none => .ok (acc, st)
    | some c =>
      if c = '\n' then .ok (acc, clear (advance st).2)
      else
        let st := skipSpace st
        (parseEventInfo fuel st).bind fun (i, st) =>
        let st := skipSpace st
        let st := if peek st = some ',' then clear (advance st).2 else st
        parseEventLoop fuel st (acc ++ [i])

/-- `Parser::parse_event`. -/
def parseEvent (fuel : Nat) (st : PState) : PRes (Event × PState) :=
  (if peek st = some '[' then
    (parseTags fuel st).bind fun (tags, st) => .ok (some tags, st)
   else .ok (none, st)).bind fun (tags, st) =>
  (parseEventLoop fuel st []).bind fun (info, st) =>
  .ok (⟨tags, info⟩, st)

/-- The event loop of `Parser::parse_day_record`. -/
def parseDayRecordLoop : Nat → PState → List Event → PRes (List Event × PState)
  | 0, _, _ => .noFuel
  | fuel + 1, st, acc =>
    match peek st with
    | none => .ok (acc, st)
    | some c =>
      if c = '\n' then .ok (acc, clear (advance st).2)
      else
        (parseEvent fuel st).bind fun (e, st) =>
        parseDayRecordLoop fuel st (acc ++ [e])

/-- `Parser::parse_day_record`. -/
def parseDayRecord (fuel : Nat) (st : PState) : PRes (DayRecord × PState) :=
  (parseDate st).bind fun (date, st) =>
  let st := skipSpace st
  (expectChar st '\n').bind fun st =>
  let st := clear st
  (parseDayRecordLoop fuel st []).bind fun (events, st) =>
  .ok (⟨date, events⟩, st)

/-- The line loop of `Parser::parse_settings`. -/
def parseSettingsLoop (tomlDe : String → Option Settings) :
    Nat → PState → PRes (Settings × PState)
  | 0, _ => .noFuel
  | fuel + 1, st =>
    match peek st with
    | none => .err (mkError st .unexpectedEof)
    | some _ =>
      let st := extractUntil st '\n'
      (expectChar st '\n').bind fun st =>
      if peek st = some '-' then
        match collect st with
        | (none, st) => .err (mkError st .unexpectedEof)
        | (some toml, st) =>
          (expectString st "---\n".toList).bind fun st =>
          match tomlDe toml with
          | some settings => .ok (settings, st)
          | none => .err (mkError st .tomlError)
      else parseSettingsLoop tomlDe fuel st

/-- `Parser::parse_settings`. -/
def parseSettings (tomlDe : String → Option Settings) (fuel : Nat)
    (st : PState) : PRes (Settings × PState) :=
  (expectString st "---\n".toList).bind fun st =>
  parseSettingsLoop tomlDe fuel (clear st)

/-- The record loop of `Parser::parse_file`. -/
def parseFileLoop : Nat → PState → List DayRecord → PRes (List DayRecord × PState)
  | 0, _, _ => .noFuel
  | fuel + 1, st, acc =>
    match peek st with
    | none => .ok (acc, st)
    | some _ =>
      (parseDayRecord fuel st).bind fun (r, st) =>
      parseFileLoop fuel (skipNewlines st) (acc ++ [r])

/-- `Parser::parse_file`. -/
def parseFile (tomlDe : String → Option Settings) (fuel : Nat)
    (st : PState) : PRes (File × PState) :=
  let st := skipSpace st
  (if peek st = some '-' then
    (parseSettings tomlDe fuel st).bind fun (s, st) => .ok (some s, st)
   else .ok (none, st)).bind fun (settings, st) =>
  let st := skipNewlines st
  (parseFileLoop fuel st []).bind fun (records, st) =>
  .ok (⟨settings, records⟩, st)

/-! ## Weekly aggregation (`src/processing.rs`) -/

/-- `processing::Error`. -/
inductive ProcError where
  | notPast (infos : List EventInfo)
  deriving DecidableEq, Repr

/-- `check_is_past`: its body starts with an unconditional `return Ok(())`,
so the future-dated-entry validation after it is dead code and the check
always succeeds. -/
def checkIsPast (_records : List DayRecord) (_today : DT) :
    Except (List EventInfo) Unit :=
  Except.ok ()

/-- The week-anchor resolution of `calc_weekly_records`: the
`(start_weekday, start_time)` pair comes from the settings when present,
otherwise it is the weekday of `today - 7 days` with 06:00:00. -/
def resolveAnchor (file : File) (today : DT) : Weekday × NaiveTimeM :=
  match file.settings with
  | some settings => (settings.start.weekday, settings.start.time)
  | none => (weekdayOfDay (today.date - 7), 21600)

/-- The `while date.weekday() != start_weekday { date -= 1 day }` loop of
`calc_weekly_records`. Weekdays repeat every 7 days, so the Rust loop runs
at most 6 iterations; fuel 7 (with which the model calls it) is never
exhausted, as the characterisation lemma below certifies. -/
def stepBackDT : Nat → DT → Weekday → DT
  | 0, dt, _ => dt
  | fuel + 1, dt, wd =>
    if weekdayOfDay dt.date = wd then dt
    else stepBackDT fuel ⟨dt.date - 1, dt.time⟩ wd

/-- The day-picking part of the `start_date` block of `calc_weekly_records`
(inline in the source): same weekday — today or seven days back depending on
the time comparison; different weekday — step back to the anchor weekday. -/
def windowBase (file : File) (today : DT) : DT :=
  if weekdayOfDay today.date = (resolveAnchor file today).1 then
    if today.time < (resolveAnchor file today).2 then
      ⟨today.date - 7, today.time⟩
    else today
  else stepBackDT 7 today (resolveAnchor file today).1

/-- The `start_date` of `calc_weekly_records`: the picked day
`.with_time(start_time)`. -/
def windowStart (file : File) (today : DT) : DT :=
  ⟨(windowBase file today).date, (resolveAnchor file today).2⟩

/-- `NaiveTime += TimeDelta`: chrono wraps at 24 hours, discarding whole
days. -/
def addWrap (t : NaiveTimeM) (d : Int) : NaiveTimeM :=
  (((t : Int) + d) % 86400).toNat

/-- The innermost `for event_info in &event.info` loop of
`calc_weekly_records`: skip the entry when its absolute timestamp is both
strictly before the window start and strictly before window start + 7 days,
otherwise add its duration (with the 24-hour wrap of `NaiveTime += `). -/
def sumInfo (startDate : DT) (date : Int) (sum : NaiveTimeM)
    (infos : List EventInfo) : NaiveTimeM :=
  infos.foldl (fun sum eventInfo =>
    let eventDatetime : DT := ⟨date, eventInfo.time⟩
    if dtLt eventDatetime startDate
        && dtLt eventDatetime ⟨startDate.date + 7, startDate.time⟩ then
      sum
    else addWrap sum eventInfo.duration) sum

/-- The `for event in &day_record.events` loop of `calc_weekly_records`. -/
def sumEvents (startDate : DT) (date : Int) (sum : NaiveTimeM)
    (events : List Event) : NaiveTimeM :=
  events.foldl (fun sum event => sumInfo startDate date sum event.info) sum

/-- The `for day_record in &file.records` loop of `calc_weekly_records`,
with its whole-record date skip. -/
def sumRecords (startDate : DT) (sum : NaiveTimeM)
    (records : List DayRecord) : NaiveTimeM :=
  records.foldl (fun sum dayRecord =>
    if dayRecord.date < startDate.date then sum
    else sumEvents startDate dayRecord.date sum dayRecord.events) sum

/-- `calc_weekly_records`. -/
def calcWeeklyRecords (file : File) (today : DT) : Except ProcError NaiveTimeM :=
  match checkIsPast file.records today with
  | .error e => .error (.notPast e)
  | .ok _ => Except.ok (sumRecords (windowStart file today) 0 file.records)

/-! ## Specification-side definitions (from the spec's words, for comparison) -/

/-- The spec's per-entry summation rule: add a duration (with 24-hour wrap)
exactly when its absolute timestamp is not strictly before the window start
— no upper bound. -/
def specStep (start : DT) (sum : NaiveTimeM) (e : DT × Int) : NaiveTimeM :=
  if dtLt e.1 start then sum else addWrap sum e.2

/-- The `(absolute timestamp, duration)` pairs of one day record, in order:
the absolute timestamp is the record's date with the info's start time. -/
def entriesOfRecord (r : DayRecord) : List (DT × Int) :=
  (r.events.map (fun e =>
    e.info.map (fun i => ((⟨r.date, i.time⟩ : DT), i.duration)))).flatten

/-- All `(absolute timestamp, duration)` pairs of a file, in document
order. -/
def allEntries (file : File) : List (DT × Int) :=
  (file.records.map entriesOfRecord).flatten

/-- The spec's summation rule, over all entries of the file. -/
def specWeeklySum (file : File) (start : DT) : NaiveTimeM :=
  (allEntries file).foldl (specStep start) 0

/-- The tags of an event (empty when the optional group is absent). -/
def eventTags (e : Event) : List Tag :=
  match e.tags with
  | some t => t.tags
  | none => []

/-- Every tag appearing anywhere in a file. -/
def fileTags (f : File) : List Tag :=
  (f.records.map (fun r => (r.events.map eventTags).flatten)).flatten

/-- C9's claimed invariant as stated: every tag title is non-empty and
whitespace-free. -/
def tagTitleClaim (f : File) : Bool :=
  (fileTags f).all (fun t =>
    (t.title != "") && t.title.data.all (fun c => !rustWhitespace c))

/-- The part of C9 that does hold: every tag title is whitespace-free. -/
def titlesNoWs (f : File) : Bool :=
  (fileTags f).all (fun t => t.title.data.all (fun c => !rustWhitespace c))

/-! ## Decimal rendering (for quantified parsing theorems) -/

/-- Digits of `n`, least significant first (`fuel ≥ n` suffices). -/
def toCharsRevAux : Nat → Nat → List Char
  | 0, _ => []
  | fuel + 1, n =>
    if n = 0 then [] else Nat.digitChar (n % 10) :: toCharsRevAux fuel (n / 10)

/-- The decimal rendering of `n`, as Rust's `format!("{n}")` produces it. -/
def natChars (n : Nat) : List Char :=
  if n = 0 then ['0'] else (toCharsRevAux n n).reverse

/-- Little-endian value of a digit list. -/
def valLE : List Char → Nat
  | [] => 0
  | c :: cs => (c.toNat - 48) + 10 * valLE cs

/-- Rendering of a duration token from its optional hour/minute/second
magnitudes, in the grammar's unit order. -/
def renderDur (ho mo so : Option Nat) : List Char :=
  (match ho with | some h => natChars h ++ ['h'] | none => [])
  ++ (match mo with | some m => natChars m ++ ['m'] | none => [])
  ++ (match so with | some s => natChars s ++ ['s'] | none => [])

/-! ## Concrete values appearing in counterexample/evaluation theorems -/

/-- The trivial stand-in for the external TOML deserializer in concrete
evaluations (none of them reach a settings block). -/
def noToml : String → Option Settings := fun _ => none

/-- The file that `"2024-1-1\n[(x)]\n"` parses to: one record (2024-01-01 =
day 19723) holding one event whose tag group is the single tag with an
empty title and detail `"x"`. -/
def c9File : File :=
  ⟨none, [⟨19723, [⟨some ⟨[⟨"", some "x"⟩]⟩, []⟩]⟩]⟩

/-- Number of backward steps from day `d` to the nearest day (itself
included) whose weekday is `wd`. -/
def distTo (d : Int) (wd : Weekday) : Int :=
  ((d + 3) % 7 - (wd.toIdx : Int)) % 7

/-- A tag title free of (Rust) whitespace characters. -/
def goodTag (t : Tag) : Prop :=
  ∀ c ∈ t.title.data, rustWhitespace c = false

/-- The file that `"2024-1-1\n[ab cd(e)] 10:00 - 1h\n"` parses to. -/
def c9WitnessFile : File :=
  ⟨none, [⟨19723, [⟨some ⟨[⟨"ab", none⟩, ⟨"cd", some "e"⟩]⟩,
    [⟨36000, 3600⟩]⟩]⟩]⟩

/-- A file whose settings pin the week start to Wednesday 08:00:00. -/
def c1File : File := ⟨some ⟨⟨.wed, 28800⟩⟩, []⟩

/-- Wednesday 2024-01-03 (day 19725) at 10:00:00. -/
def c1Today : DT := ⟨19725, 36000⟩

/-! # Claim theorems -/

/-- C3 (code bug evaluation): the spec promises that every grammar violation
is returned as a `ParseError`, but on the input `"a"` the year component of
the first day record is an empty digit run, `"".parse::<i32>()` fails, and
the `.expect("failed to parse year")` in `parse_date` panics instead of
returning an error. -/
theorem c3_parse_file_panics_on_nondigit :
    parseFile noToml 100 (mkInit "a".toList) = .panicked "failed to parse year" := by
  rfl

/-- C5 (code bug evaluation): a year that does not fit in `i32`
(`"2147483648-1-1\n"`) makes `parse_date` panic in the same
`.expect("failed to parse year")` instead of reporting anything, while an
in-range impossible date (`"2024-2-30\n"`) is correctly rejected with
`InvalidDate` (at line 1, column 10). -/
theorem c5_date_overflow_panics_and_invalid_date_reported :
    parseFile noToml 100 (mkInit "2147483648-1-1\n".toList)
      = .panicked "failed to parse year"
    ∧ parseFile noToml 100 (mkInit "2024-2-30\n".toList)
      = .err ⟨.invalidDate, 1, 10⟩ := by
  exact ⟨rfl, rfl⟩

/-- C4: the duration token error conditions of `parse_event_info`: a unit
out of the strict h-before-m-before-s order (`"30m1h"`), a repeated unit
(`"1h2h"`), an unrecognized unit letter (`"1x"`), and an empty duration
(bare `-` with nothing after it) all fail with `InvalidDurationFormat`. -/
theorem c4_duration_error_conditions :
    parseEventInfo 100 (mkInit "10:00 - 30m1h\n".toList)
      = .err ⟨.invalidDurationFormat, 1, 14⟩
    ∧ parseEventInfo 100 (mkInit "10:00 - 1h2h\n".toList)
      = .err ⟨.invalidDurationFormat, 1, 13⟩
    ∧ parseEventInfo 100 (mkInit "10:00 - 1x\n".toList)
      = .err ⟨.invalidDurationFormat, 1, 11⟩
    ∧ parseEventInfo 100 (mkInit "10:00 -\n".toList)
      = .err ⟨.invalidDurationFormat, 1, 8⟩ := by
  exact ⟨rfl, rfl, rfl, rfl⟩

/-- C10: the comma between `EventInfo` entries is optional — two entries
separated only by a space parse into one `Event` with both entries, and a
trailing comma after the last entry is also accepted; the comma is consumed
when present but never required. -/
theorem c10_comma_separator_optional :
    parseEvent 100 (mkInit "10:00 - 1h 11:00 - 2h\n".toList)
      = .ok (⟨none, [⟨36000, 3600⟩, ⟨39600, 7200⟩]⟩, ⟨[], [], false, 2, 1⟩)
    ∧ parseEvent 100 (mkInit "10:00 - 1h,\n".toList)
      = .ok (⟨none, [⟨36000, 3600⟩]⟩, ⟨[], [], false, 2, 1⟩) := by
  exact ⟨rfl, rfl⟩

/-- C9 (counterexample): the input `"2024-1-1\n[(x)]\n"` parses successfully
to a file containing the tag `{title: "", detail: Some("x")}` — a tag whose
title is empty, refuting the claimed non-empty-title invariant
(`parse_tag` collects an empty title when the tag token starts at `(`). -/
theorem c9_empty_title_counterexample :
    parseFile noToml 100 (mkInit "2024-1-1\n[(x)]\n".toList)
      = .ok (c9File, ⟨[], [], false, 3, 1⟩)
    ∧ tagTitleClaim c9File = false := by
  exact ⟨rfl, rfl⟩

/-- C8: aggregation never fails: `check_is_past` returns `Ok(())`
unconditionally (its validation body is dead code behind an early
`return Ok(())`), so `calc_weekly_records` always returns `Ok` and the
`NotPast` error variant is never produced. -/
theorem c8_aggregation_never_fails (file : File) (today : DT) :
    checkIsPast file.records today = Except.ok ()
    ∧ ∃ total, calcWeeklyRecords file today = Except.ok total := by
  exact ⟨rfl, _, rfl⟩

/-! ## Weekday arithmetic lemmas (for C1) -/

theorem Weekday.toIdx_lt (wd : Weekday) : wd.toIdx < 7 := by
  cases wd <;> decide

theorem toIdx_weekdayOfIdx (n : Nat) (h : n < 7) : (weekdayOfIdx n).toIdx = n := by
  interval_cases n <;> rfl

theorem weekdayOfIdx_toIdx (wd : Weekday) : weekdayOfIdx wd.toIdx = wd := by
  cases wd <;> rfl

theorem weekdayOfDay_eq_iff (d : Int) (wd : Weekday) :
    weekdayOfDay d = wd ↔ (d + 3) % 7 = (wd.toIdx : Int) := by
  constructor
  · intro h
    rw [weekdayOfDay] at h
    have hk : ((d + 3) % 7).toNat = wd.toIdx := by
      rw [← h, toIdx_weekdayOfIdx _ (by omega)]
    omega
  · intro h
    have hk : ((d + 3) % 7).toNat = wd.toIdx := by omega
    rw [weekdayOfDay, hk, weekdayOfIdx_toIdx]

theorem distTo_nonneg (d : Int) (wd : Weekday) : 0 ≤ distTo d wd := by
  unfold distTo; omega

theorem distTo_lt (d : Int) (wd : Weekday) : distTo d wd < 7 := by
  unfold distTo; omega

theorem distTo_eq_zero_iff (d : Int) (wd : Weekday) :
    distTo d wd = 0 ↔ weekdayOfDay d = wd := by
  rw [weekdayOfDay_eq_iff]
  have := wd.toIdx_lt
  unfold distTo
  omega

theorem distTo_pred (d : Int) (wd : Weekday) (h : weekdayOfDay d ≠ wd) :
    distTo (d - 1) wd = distTo d wd - 1 := by
  have h' : ¬ (d + 3) % 7 = (wd.toIdx : Int) :=
    fun hh => h ((weekdayOfDay_eq_iff d wd).mpr hh)
  have hi := wd.toIdx_lt
  unfold distTo
  omega

theorem stepBackDT_spec (fuel : Nat) :
    ∀ (d : Int) (t : NaiveTimeM) (wd : Weekday), distTo d wd < fuel →
      stepBackDT fuel ⟨d, t⟩ wd = ⟨d - distTo d wd, t⟩ := by
  induction fuel with
  | zero =>
    intro d t wd h
    have := distTo_nonneg d wd
    omega
  | succ n ih =>
    intro d t wd h
    rw [stepBackDT]
    by_cases hw : weekdayOfDay d = wd
    · rw [if_pos hw]
      have h0 : distTo d wd = 0 := (distTo_eq_zero_iff d wd).mpr hw
      rw [h0]
      simp
    · rw [if_neg hw]
      have hd : distTo (d - 1) wd = distTo d wd - 1 := distTo_pred d wd hw
      have h0 : distTo d wd ≠ 0 := fun hh => hw ((distTo_eq_zero_iff d wd).mp hh)
      have hnn := distTo_nonneg d wd
      rw [ih (d - 1) t wd (by omega), hd]
      simp only [DT.mk.injEq]
      constructor
      · omega
      · trivial

/-- C1: the window-start computation of `calc_weekly_records`: the anchor is
the settings pair when present, else (weekday of today − 7 days, 06:00:00);
with today's weekday equal to the anchor weekday the start is 7 days back or
today at the anchor time according to the time comparison; otherwise the
start is the most recent strictly-prior date having the anchor weekday, at
the anchor time. -/
theorem c1_window_start (file : File) (today : DT) :
    (file.settings = none →
      resolveAnchor file today = (weekdayOfDay (today.date - 7), 21600))
    ∧ (∀ s, file.settings = some s →
      resolveAnchor file today = (s.start.weekday, s.start.time))
    ∧ (weekdayOfDay today.date = (resolveAnchor file today).1 →
        today.time < (resolveAnchor file today).2 →
        windowStart file today = ⟨today.date - 7, (resolveAnchor file today).2⟩)
    ∧ (weekdayOfDay today.date = (resolveAnchor file today).1 →
        (resolveAnchor file today).2 ≤ today.time →
        windowStart file today = ⟨today.date, (resolveAnchor file today).2⟩)
    ∧ (weekdayOfDay today.date ≠ (resolveAnchor file today).1 →
        (windowStart file today).time = (resolveAnchor file today).2
        ∧ (windowStart file today).date < today.date
        ∧ weekdayOfDay (windowStart file today).date = (resolveAnchor file today).1
        ∧ ∀ e : Int, weekdayOfDay e = (resolveAnchor file today).1 →
            e < today.date → e ≤ (windowStart file today).date) := by
  refine ⟨?_, ?_, ?_, ?_, ?_⟩
  · intro h
    rw [resolveAnchor, h]
  · intro s h
    rw [resolveAnchor, h]
  · intro hw hlt
    rw [windowStart, windowBase, if_pos hw, if_pos hlt]
  · intro hw hge
    rw [windowStart, windowBase, if_pos hw, if_neg (Nat.not_lt.mpr hge)]
  · intro hw
    have hspec := stepBackDT_spec 7 today.date today.time (resolveAnchor file today).1
      (lt_of_lt_of_le (distTo_lt _ _) (by norm_num))
    have hb : windowBase file today = ⟨today.date - distTo today.date (resolveAnchor file today).1,
        today.time⟩ := by
      rw [windowBase, if_neg hw]
      exact hspec
    have h0 : distTo today.date (resolveAnchor file today).1 ≠ 0 :=
      fun hh => hw ((distTo_eq_zero_iff _ _).mp hh)
    have hnn := distTo_nonneg today.date (resolveAnchor file today).1
    have hlt7 := distTo_lt today.date (resolveAnchor file today).1
    have hidx := (resolveAnchor file today).1.toIdx_lt
    refine ⟨rfl, ?_, ?_, ?_⟩
    · rw [windowStart, hb]
      simp only []
      omega
    · rw [windowStart, hb]
      simp only []
      rw [weekdayOfDay_eq_iff]
      revert h0 hnn hlt7
      unfold distTo
      omega
    · intro e he hel
      rw [weekdayOfDay_eq_iff] at he
      rw [windowStart, hb]
      simp only []
      revert he hnn hlt7
      unfold distTo
      omega

/-- C1 witness: with settings pinning the anchor to Wednesday 08:00 and
"today" a Wednesday at 10:00 (not earlier than the anchor time), the window
start is today's date at 08:00. -/
theorem c1_window_start_witness :
    windowStart c1File c1Today = ⟨19725, 28800⟩ :=
  (c1_window_start c1File c1Today).2.2.2.1 (by decide) (by decide)

/-! ## Summation lemmas (for C2) -/

theorem dtLt_true_iff (a b : DT) :
    dtLt a b = true ↔ (a.date < b.date ∨ (a.date = b.date ∧ a.time < b.time)) := by
  simp [dtLt]

/-- A timestamp strictly before the window start is also strictly before the
window start plus seven days, so the second conjunct of the skip condition
in `calc_weekly_records` is redundant. -/
theorem dtLt_seven (e s : DT) (h : dtLt e s = true) :
    dtLt e ⟨s.date + 7, s.time⟩ = true := by
  rw [dtLt_true_iff] at h ⊢
  dsimp only at h ⊢
  omega

theorem foldl_flatten {α β : Type} (f : β → α → β) :
    ∀ (L : List (List α)) (a : β),
      L.flatten.foldl f a = L.foldl (fun a l => l.foldl f a) a := by
  intro L
  induction L with
  | nil => intro a; rfl
  | cons l ls ih =>
    intro a
    rw [List.flatten_cons, List.foldl_append, List.foldl_cons, ih]

theorem sumInfo_spec (s : DT) (d : Int) :
    ∀ (infos : List EventInfo) (sum : NaiveTimeM),
      sumInfo s d sum infos
        = (infos.map (fun i => ((⟨d, i.time⟩ : DT), i.duration))).foldl (specStep s) sum := by
  intro infos
  induction infos with
  | nil => intro sum; rfl
  | cons i is ih =>
    intro sum
    rw [sumInfo, List.foldl_cons, List.map_cons, List.foldl_cons, ← sumInfo]
    rw [ih]
    congr 1
    cases h : dtLt ⟨d, i.time⟩ s with
    | false => simp [specStep, h]
    | true => simp [specStep, h, dtLt_seven _ s h]

theorem sumEvents_spec (s : DT) (d : Int) :
    ∀ (events : List Event) (sum : NaiveTimeM),
      sumEvents s d sum events
        = ((events.map (fun e =>
            e.info.map (fun i => ((⟨d, i.time⟩ : DT), i.duration)))).flatten).foldl
            (specStep s) sum := by
  intro events
  induction events with
  | nil => intro sum; rfl
  | cons e es ih =>
    intro sum
    rw [sumEvents, List.foldl_cons, ← sumEvents, ih, List.map_cons,
        List.flatten_cons, List.foldl_append, sumInfo_spec]

theorem skip_entries (s : DT) :
    ∀ (l : List (DT × Int)) (sum : NaiveTimeM),
      (∀ x ∈ l, dtLt x.1 s = true) → l.foldl (specStep s) sum = sum := by
  intro l
  induction l with
  | nil => intro sum _; rfl
  | cons x xs ih =>
    intro sum h
    rw [List.foldl_cons, specStep, h x (List.mem_cons_self x xs), if_pos rfl]
    exact ih sum (fun y hy => h y (List.mem_cons_of_mem x hy))

theorem entriesOfRecord_date (r : DayRecord) :
    ∀ x ∈ entriesOfRecord r, x.1.date = r.date := by
  intro x hx
  rw [entriesOfRecord, List.mem_flatten] at hx
  obtain ⟨l, hl, hx⟩ := hx
  obtain ⟨e, _, rfl⟩ := List.mem_map.mp hl
  obtain ⟨i, _, rfl⟩ := List.mem_map.mp hx
  rfl

theorem sumRecords_spec (s : DT) :
    ∀ (records : List DayRecord) (sum : NaiveTimeM),
      sumRecords s sum records
        = ((records.map entriesOfRecord).flatten).foldl (specStep s) sum := by
  intro records
  induction records with
  | nil => intro sum; rfl
  | cons r rs ih =>
    intro sum
    rw [sumRecords, List.foldl_cons, ← sumRecords, ih, List.map_cons,
        List.flatten_cons, List.foldl_append]
    congr 1
    by_cases hd : r.date < s.date
    · rw [if_pos hd, skip_entries s (entriesOfRecord r) sum]
      intro x hx
      rw [dtLt_true_iff]
      left
      rw [entriesOfRecord_date r x hx]
      exact hd
    · rw [if_neg hd, sumEvents_spec]
      rfl

/-- C2: `calc_weekly_records` returns exactly the fold, over all
`(DayRecord date + EventInfo time, duration)` entries of the file in
document order, that adds a duration (with the 24-hour wrap) precisely when
its timestamp is not strictly before the window start: an entry exactly at
the window start is included, one strictly before is excluded, and there is
no upper bound (the record-level date skip and the `start + 7 days`
conjunct of the source are both redundant). -/
theorem c2_summation_inclusion (file : File) (today : DT) :
    calcWeeklyRecords file today
      = Except.ok (specWeeklySum file (windowStart file today)) := by
  rw [calcWeeklyRecords]
  rw [specWeeklySum, allEntries, ← sumRecords_spec]
  rfl

/-! ## Parser tag-title lemmas (for C9) -/

theorem spanP_taken (p : Char → Bool) :
    ∀ (l : List Char), ∀ c ∈ (spanP p l).1, p c = true := by
  intro l
  induction l with
  | nil => intro c hc; simp [spanP] at hc
  | cons x xs ih =>
    intro c hc
    rw [spanP] at hc
    by_cases hp : p x
    · rw [if_pos hp] at hc
      rcases List.mem_cons.mp hc with rfl | hc
      · exact hp
      · exact ih c hc
    · rw [if_neg hp] at hc
      simp at hc

theorem advMany_lexeme (st : PState) (cs rest : List Char) :
    (advMany st cs rest).lexeme = st.lexeme ++ cs := rfl

theorem advMany_pastEof (st : PState) (cs rest : List Char) :
    (advMany st cs rest).pastEof = st.pastEof := rfl

theorem skipSpace_lexeme (st : PState) : (skipSpace st).lexeme = [] := rfl

theorem skipSpace_pastEof (st : PState) : (skipSpace st).pastEof = st.pastEof := rfl

theorem tagTitleChar_ws (c : Char) (h : tagTitleChar c = true) :
    rustWhitespace c = false := by
  simp [tagTitleChar] at h
  exact h.1.1

theorem parseTag_title (st0 : PState) (t : Tag) (st2 : PState)
    (h : parseTag st0 = .ok (t, st2)) : goodTag t := by
  intro c hc
  cases hp : st0.pastEof with
  | true =>
    simp only [parseTag, collect, advMany_pastEof, skipSpace_pastEof, hp,
      if_true] at h
    cases h
  | false =>
    simp only [parseTag, collect, advMany_lexeme, skipSpace_lexeme,
      List.nil_append, advMany_pastEof, skipSpace_pastEof, hp,
      Bool.false_eq_true, if_false] at h
    split at h <;>
    · simp only [PRes.ok.injEq, Prod.mk.injEq] at h
      obtain ⟨ht, _⟩ := h
      rw [← ht] at hc
      exact tagTitleChar_ws c (spanP_taken _ _ c hc)

theorem parseTagsLoop_titles :
    ∀ (fuel : Nat) (st : PState) (acc tags : List Tag) (st' : PState),
      parseTagsLoop fuel st acc = .ok (tags, st') →
      (∀ t ∈ acc, goodTag t) → ∀ t ∈ tags, goodTag t := by
  intro fuel
  induction fuel with
  | zero => intro st acc tags st' h; simp [parseTagsLoop] at h
  | succ n ih =>
    intro st acc tags st' h hacc
    rw [parseTagsLoop] at h
    cases hpk : peek st with
    | none =>
      rw [hpk] at h
      dsimp only at h
      simp only [PRes.ok.injEq, Prod.mk.injEq] at h
      exact h.1 ▸ hacc
    | some c =>
      rw [hpk] at h
      dsimp only at h
      by_cases hc : c ≠ ']'
      · rw [if_pos hc] at h
        cases hpt : parseTag st with
        | ok a =>
          rw [hpt] at h
          obtain ⟨t1, st1⟩ := a
          dsimp only [PRes.bind] at h
          refine ih st1 (acc ++ [t1]) tags st' h ?_
          intro t ht
          rcases List.mem_append.mp ht with ht | ht
          · exact hacc t ht
          · rw [List.mem_singleton.mp ht]
            exact parseTag_title st t1 st1 hpt
        | err e => rw [hpt] at h; simp [PRes.bind] at h
        | panicked m => rw [hpt] at h; simp [PRes.bind] at h
        | noFuel => rw [hpt] at h; simp [PRes.bind] at h
      · rw [if_neg hc] at h
        simp only [PRes.ok.injEq, Prod.mk.injEq] at h
        exact h.1 ▸ hacc



theorem PRes.bind_ok {α β : Type} (a : α) (f : α → PRes β) :
    (PRes.ok a).bind f = f a := rfl

theorem PRes.bind_eq_ok {α β : Type} (x : PRes α) (f : α → PRes β) (b : β)
    (h : x.bind f = .ok b) : ∃ a, x = .ok a ∧ f a = .ok b := by
  cases x with
  | ok a => exact ⟨a, rfl, h⟩
  | err e => simp [PRes.bind] at h
  | panicked m => simp [PRes.bind] at h
  | noFuel => simp [PRes.bind] at h

theorem parseTags_titles (fuel : Nat) (st : PState) (tgs : Tags) (st' : PState)
    (h : parseTags fuel st = .ok (tgs, st')) : ∀ t ∈ tgs.tags, goodTag t := by
  rw [parseTags] at h
  obtain ⟨st1, h1, h⟩ := PRes.bind_eq_ok _ _ _ h
  dsimp only at h
  obtain ⟨⟨tags, st2⟩, h2, h⟩ := PRes.bind_eq_ok _ _ _ h
  dsimp only at h
  obtain ⟨st3, h3, h⟩ := PRes.bind_eq_ok _ _ _ h
  simp only [PRes.ok.injEq, Prod.mk.injEq] at h
  rw [← h.1]
  exact parseTagsLoop_titles fuel (clear st1) [] tags st2 h2 (by simp)

theorem parseEvent_tags (fuel : Nat) (st : PState) (ev : Event) (st' : PState)
    (h : parseEvent fuel st = .ok (ev, st')) : ∀ t ∈ eventTags ev, goodTag t := by
  rw [parseEvent] at h
  obtain ⟨⟨otags, st1⟩, h1, h⟩ := PRes.bind_eq_ok _ _ _ h
  dsimp only at h
  obtain ⟨⟨info, st2⟩, h2, h⟩ := PRes.bind_eq_ok _ _ _ h
  dsimp only at h
  simp only [PRes.ok.injEq, Prod.mk.injEq] at h
  rw [← h.1]
  by_cases hbr : peek st = some '['
  · rw [if_pos hbr] at h1
    obtain ⟨⟨tgs, stx⟩, htg, h1⟩ := PRes.bind_eq_ok _ _ _ h1
    dsimp only at h1
    simp only [PRes.ok.injEq, Prod.mk.injEq] at h1
    rw [← h1.1]
    simp only [eventTags]
    exact parseTags_titles fuel st tgs stx htg
  · rw [if_neg hbr] at h1
    simp only [PRes.ok.injEq, Prod.mk.injEq] at h1
    rw [← h1.1]
    simp [eventTags]

theorem parseDayRecordLoop_events :
    ∀ (fuel : Nat) (st : PState) (acc events : List Event) (st' : PState),
      parseDayRecordLoop fuel st acc = .ok (events, st') →
      (∀ e ∈ acc, ∀ t ∈ eventTags e, goodTag t) →
      ∀ e ∈ events, ∀ t ∈ eventTags e, goodTag t := by
  intro fuel
  induction fuel with
  | zero => intro st acc events st' h; simp [parseDayRecordLoop] at h
  | succ n ih =>
    intro st acc events st' h hacc
    rw [parseDayRecordLoop] at h
    cases hpk : peek st with
    | none =>
      rw [hpk] at h
      dsimp only at h
      simp only [PRes.ok.injEq, Prod.mk.injEq] at h
      exact h.1 ▸ hacc
    | some c =>
      rw [hpk] at h
      dsimp only at h
      by_cases hc : c = '\n'
      · rw [if_pos hc] at h
        simp only [PRes.ok.injEq, Prod.mk.injEq] at h
        exact h.1 ▸ hacc
      · rw [if_neg hc] at h
        obtain ⟨⟨e1, st1⟩, h1, h⟩ := PRes.bind_eq_ok _ _ _ h
        dsimp only at h
        refine ih st1 (acc ++ [e1]) events st' h ?_
        intro e he
        rcases List.mem_append.mp he with he | he
        · exact hacc e he
        · rw [List.mem_singleton.mp he]
          exact parseEvent_tags n st e1 st1 h1

theorem parseDayRecord_events (fuel : Nat) (st : PState) (r : DayRecord)
    (st' : PState) (h : parseDayRecord fuel st = .ok (r, st')) :
    ∀ e ∈ r.events, ∀ t ∈ eventTags e, goodTag t := by
  rw [parseDayRecord] at h
  obtain ⟨⟨date, st1⟩, h1, h⟩ := PRes.bind_eq_ok _ _ _ h
  try dsimp only at h
  obtain ⟨st2, h2, h⟩ := PRes.bind_eq_ok _ _ _ h
  try dsimp only at h
  obtain ⟨⟨events, st3⟩, h3, h⟩ := PRes.bind_eq_ok _ _ _ h
  simp only [PRes.ok.injEq, Prod.mk.injEq] at h
  rw [← h.1]
  exact parseDayRecordLoop_events fuel (clear st2) [] events st3 h3 (by simp)

theorem parseFileLoop_records :
    ∀ (fuel : Nat) (st : PState) (acc records : List DayRecord) (st' : PState),
      parseFileLoop fuel st acc = .ok (records, st') →
      (∀ r ∈ acc, ∀ e ∈ r.events, ∀ t ∈ eventTags e, goodTag t) →
      ∀ r ∈ records, ∀ e ∈ r.events, ∀ t ∈ eventTags e, goodTag t := by
  intro fuel
  induction fuel with
  | zero => intro st acc records st' h; simp [parseFileLoop] at h
  | succ n ih =>
    intro st acc records st' h hacc
    rw [parseFileLoop] at h
    cases hpk : peek st with
    | none =>
      rw [hpk] at h
      dsimp only at h
      simp only [PRes.ok.injEq, Prod.mk.injEq] at h
      exact h.1 ▸ hacc
    | some c =>
      rw [hpk] at h
      dsimp only at h
      obtain ⟨⟨r1, st1⟩, h1, h⟩ := PRes.bind_eq_ok _ _ _ h
      dsimp only at h
      refine ih (skipNewlines st1) (acc ++ [r1]) records st' h ?_
      intro r hr
      rcases List.mem_append.mp hr with hr | hr
      · exact hacc r hr
      · rw [List.mem_singleton.mp hr]
        exact parseDayRecord_events n st r1 st1 h1

/-- C9 (amended): every tag title in a successfully parsed file is free of
whitespace characters (titles may however be empty). -/
theorem c9_titles_no_whitespace (tomlDe : String → Option Settings)
    (fuel : Nat) (st : PState) (f : File) (st' : PState)
    (h : parseFile tomlDe fuel st = .ok (f, st')) : titlesNoWs f = true := by
  rw [parseFile] at h
  obtain ⟨⟨osettings, st1⟩, h1, h⟩ := PRes.bind_eq_ok _ _ _ h
  dsimp only at h
  obtain ⟨⟨records, st2⟩, h2, h⟩ := PRes.bind_eq_ok _ _ _ h
  simp only [PRes.ok.injEq, Prod.mk.injEq] at h
  have hrec : ∀ r ∈ records, ∀ e ∈ r.events, ∀ t ∈ eventTags e, goodTag t :=
    parseFileLoop_records fuel (skipNewlines st1) [] records st2 h2 (by simp)
  rw [← h.1]
  rw [titlesNoWs, List.all_eq_true]
  intro t ht
  show t.title.data.all (fun c => !rustWhitespace c) = true
  rw [List.all_eq_true]
  intro c hc
  show (!rustWhitespace c) = true
  rw [Bool.not_eq_true']
  rw [fileTags] at ht
  rw [List.mem_flatten] at ht
  obtain ⟨l, hl, htl⟩ := ht
  rw [List.mem_map] at hl
  obtain ⟨r, hr, rfl⟩ := hl
  rw [List.mem_flatten] at htl
  obtain ⟨l2, hl2, ht2⟩ := htl
  rw [List.mem_map] at hl2
  obtain ⟨e, he, rfl⟩ := hl2
  exact hrec r hr e he t ht2 c hc

/-- C9 witness: the file parsed from `"2024-1-1\n[ab cd(e)] 10:00 - 1h\n"`
has only whitespace-free tag titles. -/
theorem c9_titles_no_whitespace_witness : titlesNoWs c9WitnessFile = true :=
  c9_titles_no_whitespace noToml 100
    (mkInit "2024-1-1\n[ab cd(e)] 10:00 - 1h\n".toList) c9WitnessFile
    ⟨[], [], false, 3, 1⟩ rfl

/-! ## Decimal rendering and symbolic parser runs (for C6, C7) -/

theorem digitChar_toNat (d : Nat) (h : d < 10) :
    (Nat.digitChar d).toNat = 48 + d := by
  interval_cases d <;> rfl

theorem digitChar_isDigit (d : Nat) (h : d < 10) :
    isAsciiDigit (Nat.digitChar d) = true := by
  interval_cases d <;> decide

theorem digit_toNat_range (c : Char) (h : isAsciiDigit c = true) :
    48 ≤ c.toNat ∧ c.toNat ≤ 57 := by
  simp [isAsciiDigit] at h
  exact h

theorem digit_not_ws (c : Char) (h : isAsciiDigit c = true) :
    rustWhitespace c = false := by
  obtain ⟨h1, h2⟩ := digit_toNat_range c h
  simp [rustWhitespace]
  omega

theorem digit_ne_newline (c : Char) (h : isAsciiDigit c = true) : c ≠ '\n' := by
  intro hc
  subst hc
  simp [isAsciiDigit] at h

theorem toCharsRevAux_mem (fuel : Nat) :
    ∀ (n : Nat), ∀ c ∈ toCharsRevAux fuel n, ∃ d, d < 10 ∧ c = Nat.digitChar d := by
  induction fuel with
  | zero => intro n c hc; simp [toCharsRevAux] at hc
  | succ f ih =>
    intro n c hc
    rw [toCharsRevAux] at hc
    by_cases hn : n = 0
    · rw [if_pos hn] at hc; simp at hc
    · rw [if_neg hn] at hc
      rcases List.mem_cons.mp hc with rfl | hc
      · exact ⟨n % 10, Nat.mod_lt n (by norm_num), rfl⟩
      · exact ih (n / 10) c hc

theorem natChars_digits (n : Nat) : ∀ c ∈ natChars n, isAsciiDigit c = true := by
  intro c hc
  rw [natChars] at hc
  by_cases hn : n = 0
  · rw [if_pos hn] at hc
    rw [List.mem_singleton.mp hc]
    decide
  · rw [if_neg hn] at hc
    obtain ⟨d, hd, rfl⟩ := toCharsRevAux_mem n n c (List.mem_reverse.mp hc)
    exact digitChar_isDigit d hd

theorem natChars_ne_nil (n : Nat) : natChars n ≠ [] := by
  rw [natChars]
  by_cases hn : n = 0
  · rw [if_pos hn]; simp
  · rw [if_neg hn]
    obtain ⟨m, rfl⟩ := Nat.exists_eq_succ_of_ne_zero hn
    rw [toCharsRevAux, if_neg hn]
    simp

theorem charsToNatVal_append_singleton (xs : List Char) (c : Char) :
    charsToNatVal (xs ++ [c]) = 10 * charsToNatVal xs + (c.toNat - 48) := by
  rw [charsToNatVal, List.foldl_append]
  rfl

theorem valRev (xs : List Char) : charsToNatVal xs.reverse = valLE xs := by
  induction xs with
  | nil => rfl
  | cons c cs ih =>
    rw [List.reverse_cons, charsToNatVal_append_singleton, ih, valLE]
    omega

theorem toCharsRevAux_val (fuel : Nat) :
    ∀ n, n ≤ fuel → valLE (toCharsRevAux fuel n) = n := by
  induction fuel with
  | zero => intro n hn; interval_cases n; rfl
  | succ f ih =>
    intro n hn
    rw [toCharsRevAux]
    by_cases hn0 : n = 0
    · rw [if_pos hn0, hn0]; rfl
    · rw [if_neg hn0, valLE, digitChar_toNat (n % 10) (Nat.mod_lt n (by omega)),
        ih (n / 10) (by omega)]
      omega

theorem natChars_val (n : Nat) : charsToNatVal (natChars n) = n := by
  rw [natChars]
  by_cases hn : n = 0
  · rw [if_pos hn, hn]; rfl
  · rw [if_neg hn, valRev, toCharsRevAux_val n n le_rfl]

theorem parseBounded_natChars (bound n : Nat) (h : n ≤ bound) :
    parseBounded bound (String.mk (natChars n)) = some n := by
  rw [parseBounded]
  rw [if_neg (by simp [natChars_ne_nil n])]
  rw [show (String.mk (natChars n)).data = natChars n from rfl, natChars_val,
    if_pos h]



theorem spanP_full (p : Char → Bool) :
    ∀ (ds rest : List Char), (∀ c ∈ ds, p c = true) →
      (∀ c, rest.head? = some c → p c = false) →
      spanP p (ds ++ rest) = (ds, rest) := by
  intro ds
  induction ds with
  | nil =>
    intro rest _ hrest
    cases rest with
    | nil => rfl
    | cons r rs =>
      rw [List.nil_append, spanP, if_neg (by simp [hrest r rfl])]
  | cons d ds ih =>
    intro rest hds hrest
    rw [List.cons_append, spanP,
      if_pos (hds d (List.mem_cons_self d ds)),
      ih rest (fun c hc => hds c (List.mem_cons_of_mem d hc)) hrest]

theorem stepPos_no_newline :
    ∀ (cs : List Char), (∀ c ∈ cs, c ≠ '\n') →
      ∀ (ln col : Nat), cs.foldl stepPos (ln, col) = (ln, col + cs.length) := by
  intro cs
  induction cs with
  | nil => intro _ ln col; rfl
  | cons c cs ih =>
    intro h ln col
    rw [List.foldl_cons, stepPos, if_neg (h c (List.mem_cons_self c cs)),
      ih (fun x hx => h x (List.mem_cons_of_mem c hx))]
    rw [List.length_cons]
    congr 1
    omega

theorem advMany_mk (rem lex : List Char) (pe : Bool) (ln col : Nat)
    (cs rest : List Char) (h : ∀ c ∈ cs, c ≠ '\n') :
    advMany ⟨rem, lex, pe, ln, col⟩ cs rest
      = ⟨rest, lex ++ cs, pe, ln, col + cs.length⟩ := by
  rw [advMany, stepPos_no_newline cs h]

theorem extractNum_run (ds rest lex : List Char) (ln col : Nat)
    (hds : ∀ c ∈ ds, isAsciiDigit c = true)
    (hrest : ∀ c, rest.head? = some c → isAsciiDigit c = false) :
    extractNum ⟨ds ++ rest, lex, false, ln, col⟩
      = .ok (String.mk (lex ++ ds), ⟨rest, [], false, ln, col + ds.length⟩) := by
  rw [extractNum]
  rw [show (⟨ds ++ rest, lex, false, ln, col⟩ : PState).remaining = ds ++ rest from rfl]
  rw [spanP_full isAsciiDigit ds rest hds hrest]
  rw [show ((ds, rest) : List Char × List Char).1 = ds from rfl,
      show ((ds, rest) : List Char × List Char).2 = rest from rfl]
  rw [advMany_mk (ds ++ rest) lex false ln col ds rest
      (fun c hc => digit_ne_newline c (hds c hc))]
  rw [collect]
  rw [if_neg (by simp)]
  rfl



theorem expectChar_cons (c : Char) (rest lex : List Char) (pe : Bool)
    (ln col : Nat) (hc : c ≠ '\n') :
    expectChar ⟨c :: rest, lex, pe, ln, col⟩ c
      = .ok ⟨rest, lex ++ [c], pe, ln, col + 1⟩ := by
  rw [expectChar]
  rw [show peek ⟨c :: rest, lex, pe, ln, col⟩ = some c from rfl]
  dsimp only
  rw [if_pos rfl]
  rw [show advance ⟨c :: rest, lex, pe, ln, col⟩
      = (some c, advMany ⟨c :: rest, lex, pe, ln, col⟩ [c] rest) from rfl]
  rw [advMany_mk (c :: rest) lex pe ln col [c] rest (by simpa using hc)]
  rfl

theorem skipSpace_run (sps rest lex : List Char) (pe : Bool) (ln col : Nat)
    (hsp : ∀ c ∈ sps, spaceChar c = true)
    (hrest : ∀ c, rest.head? = some c → spaceChar c = false) :
    skipSpace ⟨sps ++ rest, lex, pe, ln, col⟩
      = ⟨rest, [], pe, ln, col + sps.length⟩ := by
  have hnl : ∀ c ∈ sps, c ≠ '\n' := by
    intro c hc hcn
    have := hsp c hc
    rw [hcn] at this
    simp [spaceChar] at this
  rw [skipSpace]
  rw [show (⟨sps ++ rest, lex, pe, ln, col⟩ : PState).remaining = sps ++ rest from rfl]
  rw [spanP_full spaceChar sps rest hsp hrest]
  rw [show ((sps, rest) : List Char × List Char).1 = sps from rfl,
      show ((sps, rest) : List Char × List Char).2 = rest from rfl]
  rw [advMany_mk (sps ++ rest) lex pe ln col sps rest hnl]
  rfl

theorem space_spaceChar : spaceChar ' ' = true := by decide

theorem digit_not_spaceChar (c : Char) (h : isAsciiDigit c = true) :
    spaceChar c = false := by
  simp [spaceChar, digit_not_ws c h]



theorem head_cons_prop {P : Char → Prop} (x : Char) (xs : List Char) (hP : P x) :
    ∀ c, (x :: xs).head? = some c → P c := by
  intro c hc
  rw [List.head?_cons, Option.some.injEq] at hc
  rw [← hc]
  exact hP

theorem parseU32_natChars (n : Nat) (h : n ≤ u32Max) :
    parseU32 (String.mk (natChars n)) = some n :=
  parseBounded_natChars u32Max n h

theorem parseI64_natChars (n : Nat) (h : n ≤ i64Max) :
    parseI64 (String.mk (natChars n)) = some n :=
  parseBounded_natChars i64Max n h

theorem timeRun (fuel th tm : Nat) (rest : List Char)
    (hth : th ≤ u32Max) (htm : tm ≤ u32Max)
    (hrest : ∀ c, rest.head? = some c → spaceChar c = false) :
    parseEventInfo fuel
      (mkInit (natChars th ++ (':' :: (natChars tm ++ (' ' :: '-' :: ' ' :: rest)))))
      = parseEventInfoDur fuel th tm
          ⟨rest, [], false, 1, (natChars th).length + (natChars tm).length + 5⟩ := by
  rw [parseEventInfo]
  rw [show mkInit (natChars th ++ (':' :: (natChars tm ++ (' ' :: '-' :: ' ' :: rest))))
      = ⟨natChars th ++ (':' :: (natChars tm ++ (' ' :: '-' :: ' ' :: rest))),
         [], false, 1, 1⟩ from rfl]
  rw [extractNum_run (natChars th) (':' :: (natChars tm ++ (' ' :: '-' :: ' ' :: rest)))
      [] 1 1 (natChars_digits th) (head_cons_prop ':' _ (by decide))]
  dsimp only [PRes.bind]
  rw [List.nil_append, parseU32_natChars th hth]
  dsimp only
  rw [expectChar_cons ':' (natChars tm ++ (' ' :: '-' :: ' ' :: rest)) [] false 1
      ((1 : Nat) + (natChars th).length) (by decide)]
  dsimp only [PRes.bind, clear]
  rw [extractNum_run (natChars tm) (' ' :: '-' :: ' ' :: rest)
      [] 1 ((1 : Nat) + (natChars th).length + 1) (natChars_digits tm)
      (head_cons_prop ' ' _ (by decide))]
  dsimp only [PRes.bind]
  rw [List.nil_append, parseU32_natChars tm htm]
  dsimp only
  rw [show (' ' :: '-' :: ' ' :: rest) = [' '] ++ ('-' :: ' ' :: rest) from rfl]
  rw [skipSpace_run [' '] ('-' :: ' ' :: rest) [] false 1 _
      (by intro c hc; rw [List.mem_singleton.mp hc]; decide)
      (head_cons_prop '-' _ (by decide))]
  rw [expectChar_cons '-' (' ' :: rest) [] false 1 _ (by decide)]
  dsimp only [PRes.bind]
  rw [show (' ' :: rest) = [' '] ++ rest from rfl]
  rw [skipSpace_run [' '] rest ([] ++ ['-']) false 1 _
      (by intro c hc; rw [List.mem_singleton.mp hc]; decide) hrest]
  congr 1
  simp only [PState.mk.injEq, true_and, and_true, List.length_singleton]
  omega



theorem parseDurLoop_pair (fuel i : Nat) (hms : Hms) (n : Nat) (u : Char)
    (nUnit : Nat) (rest : List Char) (ln col : Nat)
    (hi : i < 3) (hn : n ≤ i64Max)
    (hu : (if u = 'h' then some 0 else if u = 'm' then some 1
           else if u = 's' then some 2 else none : Option Nat) = some nUnit)
    (hud : isAsciiDigit u = false) (hun : u ≠ '\n')
    (hge : i ≤ nUnit) :
    parseDurLoop (fuel + 1) i hms ⟨natChars n ++ (u :: rest), [], false, ln, col⟩
      = parseDurLoop fuel (nUnit + 1) (hms.set nUnit n)
          ⟨rest, [], false, ln, col + (natChars n).length + 1⟩ := by
  rw [parseDurLoop]
  rw [if_pos hi]
  rw [extractNum_run (natChars n) (u :: rest) [] ln col (natChars_digits n)
      (head_cons_prop u _ hud)]
  dsimp only
  rw [List.nil_append, parseI64_natChars n hn]
  dsimp only
  rw [show advance ⟨u :: rest, [], false, ln, col + (natChars n).length⟩
      = (some u, advMany ⟨u :: rest, [], false, ln, col + (natChars n).length⟩
          [u] rest) from rfl]
  rw [advMany_mk (u :: rest) [] false ln (col + (natChars n).length) [u] rest
      (by simpa using hun)]
  dsimp only
  rw [hu]
  dsimp only [clear]
  rw [if_neg (by omega)]
  simp only [List.length_singleton]

theorem parseDurLoop_stop (fuel i : Nat) (hms : Hms) (rem : List Char)
    (ln col : Nat) (hi : i < 3)
    (hrest : ∀ c, rem.head? = some c → isAsciiDigit c = false) :
    parseDurLoop (fuel + 1) i hms ⟨rem, [], false, ln, col⟩
      = .ok (hms, ⟨rem, [], false, ln, col⟩) := by
  rw [parseDurLoop]
  rw [if_pos hi]
  rw [show (⟨rem, [], false, ln, col⟩ : PState)
      = ⟨[] ++ rem, [], false, ln, col⟩ from rfl]
  rw [extractNum_run [] rem [] ln col (by simp) hrest]
  dsimp only
  rw [show parseI64 (String.mk ([] ++ [])) = none from rfl]
  dsimp only
  congr 2

theorem parseDurLoop_done (fuel i : Nat) (hms : Hms) (st : PState)
    (hi : ¬ i < 3) :
    parseDurLoop (fuel + 1) i hms st = .ok (hms, st) := by
  rw [parseDurLoop, if_neg hi]

theorem fromHmsOpt_none (h m : Nat) (hbad : 23 < h ∨ 59 < m) :
    fromHmsOpt h m 0 = none := by
  rw [fromHmsOpt, if_neg]
  simp only [Bool.and_eq_true, decide_eq_true_eq, not_and]
  omega



theorem head_append_natChars (n : Nat) (X : List Char) :
    ∀ c, (natChars n ++ X).head? = some c → isAsciiDigit c = true := by
  obtain ⟨c0, cs0, hEq⟩ := List.exists_cons_of_ne_nil (natChars_ne_nil n)
  rw [hEq]
  intro c hc
  rw [List.cons_append, List.head?_cons, Option.some.injEq] at hc
  rw [← hc]
  exact natChars_digits n c0 (hEq ▸ List.mem_cons_self c0 cs0)

/-- C7: an invalid clock time shares the duration error kind: when the
start-time tokens parse to an hour above 23 or a minute above 59 (and the
duration part itself is fine — here `1h`), `parse_event_info` fails with
`InvalidDurationFormat`, not `InvalidDate`. -/
theorem c7_invalid_clock_time_kind (fuel th tm : Nat)
    (hth : th ≤ u32Max) (htm : tm ≤ u32Max) (hbad : 23 < th ∨ 59 < tm) :
    parseEventInfo (fuel + 2)
      (mkInit (natChars th ++ (':' :: (natChars tm
        ++ (' ' :: '-' :: ' ' :: ('1' :: 'h' :: ['\n']))))))
      = .err ⟨.invalidDurationFormat, 1,
          (natChars th).length + (natChars tm).length + 7⟩ := by
  rw [timeRun (fuel + 2) th tm ('1' :: 'h' :: ['\n']) hth htm
      (head_cons_prop '1' _ (by decide))]
  rw [parseEventInfoDur]
  rw [show ('1' :: 'h' :: ['\n']) = natChars 1 ++ ('h' :: ['\n']) from rfl]
  have e1 : fuel + 2 = (fuel + 1) + 1 := by omega
  rw [e1]
  rw [parseDurLoop_pair (fuel + 1) 0 ⟨none, none, none⟩ 1 'h' 0 ['\n'] 1 _
      (by omega) (by norm_num [i64Max]) rfl (by decide) (by decide) (by omega)]
  have e2 : fuel + 1 = fuel + 1 := rfl
  rw [parseDurLoop_stop fuel (0 + 1) _ ['\n'] 1 _ (by omega)
      (head_cons_prop '\n' _ (by decide))]
  dsimp only [PRes.bind]
  rw [if_neg (by simp [Hms.set, Hms.allNone])]
  rw [fromHmsOpt_none th tm hbad]
  rw [mkError]
  congr 2



theorem renderDur_head (ho mo so : Option Nat) :
    ∀ c, (renderDur ho mo so ++ ['\n']).head? = some c → spaceChar c = false := by
  have hdig : ∀ (n : Nat) (X : List Char) (c : Char),
      (natChars n ++ X).head? = some c → spaceChar c = false := by
    intro n X c hc
    exact digit_not_spaceChar c (head_append_natChars n X c hc)
  rcases ho with _ | h <;> rcases mo with _ | m <;> rcases so with _ | s <;>
    dsimp only [renderDur] <;>
    simp only [List.append_assoc, List.cons_append, List.singleton_append, List.nil_append]
  · exact head_cons_prop '\n' _ (by decide)
  · exact hdig s _
  · exact hdig m _
  · exact hdig m _
  · exact hdig h _
  · exact hdig h _
  · exact hdig h _
  · exact hdig h _

/-- The duration construction of `parse_event_info`
(`TimeDelta::hours(h) + TimeDelta::minutes(m) + TimeDelta::seconds(s)`):
when the total stays within the `TimeDelta` range, no step panics and the
result is `h*3600 + m*60 + s` seconds. -/
theorem timeDeltaChain {β : Type} (f : Int → PRes β) (h m s : Nat)
    (hb : 3600 * h + 60 * m + s ≤ timeDeltaMaxSecs) :
    ((timeDeltaHours h).bind fun dh =>
      (timeDeltaMinutes m).bind fun dm =>
      (timeDeltaAdd dh dm).bind fun dhm =>
      (timeDeltaSeconds s).bind fun ds =>
      (timeDeltaAdd dhm ds).bind fun duration => f duration)
      = f (3600 * (h : Int) + 60 * (m : Int) + (s : Int)) := by
  have hmax : timeDeltaMaxSecs = 9223372036854775 := rfl
  rw [timeDeltaHours, if_pos (by omega)]
  dsimp only [PRes.bind]
  rw [timeDeltaMinutes, if_pos (by omega)]
  dsimp only [PRes.bind]
  rw [timeDeltaAdd, if_pos (by omega)]
  dsimp only [PRes.bind]
  rw [timeDeltaSeconds, if_pos (by omega)]
  dsimp only [PRes.bind]
  rw [timeDeltaAdd, if_pos (by omega)]

/-- C6: the duration value: for every well-formed duration token (optional
hour/minute/second magnitudes in unit order, not all absent, total within
the `TimeDelta` range — outside it the program panics in the `TimeDelta`
constructors), the parsed `EventInfo` duration in seconds equals
`hours*3600 + minutes*60 + seconds`, absent magnitudes defaulting to zero
(so `1h30m` yields 5400 s, `45m` yields 2700 s, `2h` yields 7200 s). -/
theorem c6_duration_value (fuel : Nat) (ho mo so : Option Nat)
    (hbound : 3600 * ho.getD 0 + 60 * mo.getD 0 + so.getD 0 ≤ timeDeltaMaxSecs)
    (hne : ¬ (ho = none ∧ mo = none ∧ so = none)) :
    parseEventInfo (fuel + 4)
      (mkInit (natChars 10 ++ (':' :: (natChars 0
        ++ (' ' :: '-' :: ' ' :: (renderDur ho mo so ++ ['\n']))))))
      = .ok (⟨36000, 3600 * (ho.getD 0 : Int) + 60 * (mo.getD 0 : Int)
               + (so.getD 0 : Int)⟩,
             ⟨['\n'], [], false, 1, 8 + (renderDur ho mo so).length⟩) := by
  rw [timeRun (fuel + 4) 10 0 (renderDur ho mo so ++ ['\n'])
      (by norm_num [u32Max]) (by norm_num [u32Max]) (renderDur_head ho mo so)]
  rw [parseEventInfoDur]
  simp only [show ((natChars 10).length + (natChars 0).length + 5 : Nat) = 8 from rfl]
  rcases ho with _ | h <;> rcases mo with _ | m <;> rcases so with _ | s <;>
    simp only [Option.getD_some, Option.getD_none] at hbound ⊢
  · exact absurd ⟨rfl, rfl, rfl⟩ hne
  · -- s only
    dsimp only [renderDur]
    simp only [List.append_assoc, List.cons_append, List.singleton_append,
      List.nil_append]
    rw [show fuel + 4 = fuel + 3 + 1 from by omega]
    rw [parseDurLoop_pair (fuel + 3) 0 ⟨none, none, none⟩ s 's' 2 ['\n'] 1 8
        (by omega) (by have hmax : timeDeltaMaxSecs = 9223372036854775 := rfl; have hi : i64Max = 9223372036854775807 := rfl; omega) rfl (by decide) (by decide) (by omega)]
    rw [show Hms.set ⟨none, none, none⟩ 2 s = ⟨none, none, some s⟩ from rfl]
    rw [show fuel + 3 = fuel + 2 + 1 from by omega]
    rw [parseDurLoop_done (fuel + 2) (2 + 1) ⟨none, none, some s⟩ _ (by omega)]
    simp only [PRes.bind_ok]
    rw [if_neg (by simp [Hms.allNone])]
    rw [show fromHmsOpt 10 0 0 = some 36000 from rfl]
    dsimp only
    simp only [Option.getD_some, Option.getD_none]
    rw [timeDeltaChain _ 0 0 s (by omega)]
    congr 2
    simp [List.length_append]
    omega
  · -- m only
    dsimp only [renderDur]
    simp only [List.append_assoc, List.cons_append, List.singleton_append,
      List.nil_append]
    rw [show fuel + 4 = fuel + 3 + 1 from by omega]
    rw [parseDurLoop_pair (fuel + 3) 0 ⟨none, none, none⟩ m 'm' 1 ['\n'] 1 8
        (by omega) (by have hmax : timeDeltaMaxSecs = 9223372036854775 := rfl; have hi : i64Max = 9223372036854775807 := rfl; omega) rfl (by decide) (by decide) (by omega)]
    rw [show Hms.set ⟨none, none, none⟩ 1 m = ⟨none, some m, none⟩ from rfl]
    rw [show fuel + 3 = fuel + 2 + 1 from by omega]
    rw [parseDurLoop_stop (fuel + 2) (1 + 1) ⟨none, some m, none⟩ ['\n'] 1 _
        (by omega) (head_cons_prop '\n' _ (by decide))]
    simp only [PRes.bind_ok]
    rw [if_neg (by simp [Hms.allNone])]
    rw [show fromHmsOpt 10 0 0 = some 36000 from rfl]
    dsimp only
    simp only [Option.getD_some, Option.getD_none]
    rw [timeDeltaChain _ 0 m 0 (by omega)]
    congr 2
    simp [List.length_append]
    omega
  · -- m and s
    dsimp only [renderDur]
    simp only [List.append_assoc, List.cons_append, List.singleton_append,
      List.nil_append]
    rw [show fuel + 4 = fuel + 3 + 1 from by omega]
    rw [parseDurLoop_pair (fuel + 3) 0 ⟨none, none, none⟩ m 'm' 1
        (natChars s ++ ('s' :: ['\n'])) 1 8
        (by omega) (by have hmax : timeDeltaMaxSecs = 9223372036854775 := rfl; have hi : i64Max = 9223372036854775807 := rfl; omega) rfl (by decide) (by decide) (by omega)]
    rw [show Hms.set ⟨none, none, none⟩ 1 m = ⟨none, some m, none⟩ from rfl]
    rw [show fuel + 3 = fuel + 2 + 1 from by omega]
    rw [parseDurLoop_pair (fuel + 2) (1 + 1) ⟨none, some m, none⟩ s 's' 2 ['\n'] 1
        (8 + (natChars m).length + 1)
        (by omega) (by have hmax : timeDeltaMaxSecs = 9223372036854775 := rfl; have hi : i64Max = 9223372036854775807 := rfl; omega) rfl (by decide) (by decide) (by omega)]
    rw [show Hms.set ⟨none, some m, none⟩ 2 s = ⟨none, some m, some s⟩ from rfl]
    rw [show fuel + 2 = fuel + 1 + 1 from by omega]
    rw [parseDurLoop_done (fuel + 1) (2 + 1) ⟨none, some m, some s⟩ _ (by omega)]
    simp only [PRes.bind_ok]
    rw [if_neg (by simp [Hms.allNone])]
    rw [show fromHmsOpt 10 0 0 = some 36000 from rfl]
    dsimp only
    simp only [Option.getD_some, Option.getD_none]
    rw [timeDeltaChain _ 0 m s (by omega)]
    congr 2
    simp [List.length_append]
    omega
  · -- h only
    dsimp only [renderDur]
    simp only [List.append_assoc, List.cons_append, List.singleton_append,
      List.nil_append]
    rw [show fuel + 4 = fuel + 3 + 1 from by omega]
    rw [parseDurLoop_pair (fuel + 3) 0 ⟨none, none, none⟩ h 'h' 0 ['\n'] 1 8
        (by omega) (by have hmax : timeDeltaMaxSecs = 9223372036854775 := rfl; have hi : i64Max = 9223372036854775807 := rfl; omega) rfl (by decide) (by decide) (by omega)]
    rw [show Hms.set ⟨none, none, none⟩ 0 h = ⟨some h, none, none⟩ from rfl]
    rw [show fuel + 3 = fuel + 2 + 1 from by omega]
    rw [parseDurLoop_stop (fuel + 2) (0 + 1) ⟨some h, none, none⟩ ['\n'] 1 _
        (by omega) (head_cons_prop '\n' _ (by decide))]
    simp only [PRes.bind_ok]
    rw [if_neg (by simp [Hms.allNone])]
    rw [show fromHmsOpt 10 0 0 = some 36000 from rfl]
    dsimp only
    simp only [Option.getD_some, Option.getD_none]
    rw [timeDeltaChain _ h 0 0 (by omega)]
    congr 2
    simp [List.length_append]
    omega
  · -- h and s
    dsimp only [renderDur]
    simp only [List.append_assoc, List.cons_append, List.singleton_append,
      List.nil_append]
    rw [show fuel + 4 = fuel + 3 + 1 from by omega]
    rw [parseDurLoop_pair (fuel + 3) 0 ⟨none, none, none⟩ h 'h' 0
        (natChars s ++ ('s' :: ['\n'])) 1 8
        (by omega) (by have hmax : timeDeltaMaxSecs = 9223372036854775 := rfl; have hi : i64Max = 9223372036854775807 := rfl; omega) rfl (by decide) (by decide) (by omega)]
    rw [show Hms.set ⟨none, none, none⟩ 0 h = ⟨some h, none, none⟩ from rfl]
    rw [show fuel + 3 = fuel + 2 + 1 from by omega]
    rw [parseDurLoop_pair (fuel + 2) (0 + 1) ⟨some h, none, none⟩ s 's' 2 ['\n'] 1
        (8 + (natChars h).length + 1)
        (by omega) (by have hmax : timeDeltaMaxSecs = 9223372036854775 := rfl; have hi : i64Max = 9223372036854775807 := rfl; omega) rfl (by decide) (by decide) (by omega)]
    rw [show Hms.set ⟨some h, none, none⟩ 2 s = ⟨some h, none, some s⟩ from rfl]
    rw [show fuel + 2 = fuel + 1 + 1 from by omega]
    rw [parseDurLoop_done (fuel + 1) (2 + 1) ⟨some h, none, some s⟩ _ (by omega)]
    simp only [PRes.bind_ok]
    rw [if_neg (by simp [Hms.allNone])]
    rw [show fromHmsOpt 10 0 0 = some 36000 from rfl]
    dsimp only
    simp only [Option.getD_some, Option.getD_none]
    rw [timeDeltaChain _ h 0 s (by omega)]
    congr 2
    simp [List.length_append]
    omega
  · -- h and m
    dsimp only [renderDur]
    simp only [List.append_assoc, List.cons_append, List.singleton_append,
      List.nil_append]
    rw [show fuel + 4 = fuel + 3 + 1 from by omega]
    rw [parseDurLoop_pair (fuel + 3) 0 ⟨none, none, none⟩ h 'h' 0
        (natChars m ++ ('m' :: ['\n'])) 1 8
        (by omega) (by have hmax : timeDeltaMaxSecs = 9223372036854775 := rfl; have hi : i64Max = 9223372036854775807 := rfl; omega) rfl (by decide) (by decide) (by omega)]
    rw [show Hms.set ⟨none, none, none⟩ 0 h = ⟨some h, none, none⟩ from rfl]
    rw [show fuel + 3 = fuel + 2 + 1 from by omega]
    rw [parseDurLoop_pair (fuel + 2) (0 + 1) ⟨some h, none, none⟩ m 'm' 1 ['\n'] 1
        (8 + (natChars h).length + 1)
        (by omega) (by have hmax : timeDeltaMaxSecs = 9223372036854775 := rfl; have hi : i64Max = 9223372036854775807 := rfl; omega) rfl (by decide) (by decide) (by omega)]
    rw [show Hms.set ⟨some h, none, none⟩ 1 m = ⟨some h, some m, none⟩ from rfl]
    rw [show fuel + 2 = fuel + 1 + 1 from by omega]
    rw [parseDurLoop_stop (fuel + 1) (1 + 1) ⟨some h, some m, none⟩ ['\n'] 1 _
        (by omega) (head_cons_prop '\n' _ (by decide))]
    simp only [PRes.bind_ok]
    rw [if_neg (by simp [Hms.allNone])]
    rw [show fromHmsOpt 10 0 0 = some 36000 from rfl]
    dsimp only
    simp only [Option.getD_some, Option.getD_none]
    rw [timeDeltaChain _ h m 0 (by omega)]
    congr 2
    simp [List.length_append]
    omega
  · -- h, m and s
    dsimp only [renderDur]
    simp only [List.append_assoc, List.cons_append, List.singleton_append,
      List.nil_append]
    rw [show fuel + 4 = fuel + 3 + 1 from by omega]
    rw [parseDurLoop_pair (fuel + 3) 0 ⟨none, none, none⟩ h 'h' 0
        (natChars m ++ ('m' :: (natChars s ++ ('s' :: ['\n'])))) 1 8
        (by omega) (by have hmax : timeDeltaMaxSecs = 9223372036854775 := rfl; have hi : i64Max = 9223372036854775807 := rfl; omega) rfl (by decide) (by decide) (by omega)]
    rw [show Hms.set ⟨none, none, none⟩ 0 h = ⟨some h, none, none⟩ from rfl]
    rw [show fuel + 3 = fuel + 2 + 1 from by omega]
    rw [parseDurLoop_pair (fuel + 2) (0 + 1) ⟨some h, none, none⟩ m 'm' 1
        (natChars s ++ ('s' :: ['\n'])) 1 (8 + (natChars h).length + 1)
        (by omega) (by have hmax : timeDeltaMaxSecs = 9223372036854775 := rfl; have hi : i64Max = 9223372036854775807 := rfl; omega) rfl (by decide) (by decide) (by omega)]
    rw [show Hms.set ⟨some h, none, none⟩ 1 m = ⟨some h, some m, none⟩ from rfl]
    rw [show fuel + 2 = fuel + 1 + 1 from by omega]
    rw [parseDurLoop_pair (fuel + 1) (1 + 1) ⟨some h, some m, none⟩ s 's' 2 ['\n'] 1
        (8 + (natChars h).length + 1 + (natChars m).length + 1)
        (by omega) (by have hmax : timeDeltaMaxSecs = 9223372036854775 := rfl; have hi : i64Max = 9223372036854775807 := rfl; omega) rfl (by decide) (by decide) (by omega)]
    rw [show Hms.set ⟨some h, some m, none⟩ 2 s = ⟨some h, some m, some s⟩ from rfl]
    rw [show fuel + 1 = fuel + 0 + 1 from by omega]
    rw [parseDurLoop_done (fuel + 0) (2 + 1) ⟨some h, some m, some s⟩ _ (by omega)]
    simp only [PRes.bind_ok]
    rw [if_neg (by simp [Hms.allNone])]
    rw [show fromHmsOpt 10 0 0 = some 36000 from rfl]
    dsimp only
    simp only [Option.getD_some, Option.getD_none]
    rw [timeDeltaChain _ h m s (by omega)]
    congr 2
    simp [List.length_append]
    omega


/-- C7 witness: `"25:0 - 1h\n"` (hour 25) fails with
`InvalidDurationFormat` at line 1, column 10. -/
theorem c7_invalid_clock_time_kind_witness :
    parseEventInfo 2
      (mkInit (natChars 25 ++ (':' :: (natChars 0
        ++ (' ' :: '-' :: ' ' :: ('1' :: 'h' :: ['\n']))))))
      = .err ⟨.invalidDurationFormat, 1, 10⟩ :=
  c7_invalid_clock_time_kind 0 25 0 (by norm_num [u32Max])
    (by norm_num [u32Max]) (Or.inl (by norm_num))

/-- C6 witness: the duration token `1h30m` parses to 1 h 30 min 0 s =
5400 seconds. -/
theorem c6_duration_value_witness :
    parseEventInfo 4
      (mkInit (natChars 10 ++ (':' :: (natChars 0
        ++ (' ' :: '-' :: ' ' :: (renderDur (some 1) (some 30) none ++ ['\n']))))))
      = .ok (⟨36000, 5400⟩, ⟨['\n'], [], false, 1, 13⟩) :=
  c6_duration_value 0 (some 1) (some 30) none
    (by norm_num [Option.getD_some, Option.getD_none, timeDeltaMaxSecs])
    (by simp)

end LRec

